import Mathlib

/-!
Verification development for the Proworldz desktop code runner
(`src/main.js`).  The relevant parts of the program are shallowly
embedded below: the filesystem is a list of filenames inside the scratch
directory, child processes are described by the data the orchestrator
observes (exit code, accumulated stdout and stderr), timers are explicit
deadlines in milliseconds, and the session table is an association list.
All definitions are translated from the JavaScript source; the one
definition translated from the specification text instead is clearly
marked as such and is only used to compare the spec against the code.
-/

namespace Proworldz

/-- Milliseconds of the absolute batch timeout in `execWithInput`
(`setTimeout(..., 10000)`). -/
def execTimeoutMs : Nat := 10000

/-- Grace period between SIGTERM and SIGKILL used by `execWithInput` and
`stopRunSession` (`setTimeout(() => child.kill(SIGKILL), 1000)`). -/
def killGraceMs : Nat := 1000

/-- Two-stage termination: the absolute times at which SIGTERM and SIGKILL
are sent. -/
structure Escalation where
  sigterm : Nat
  sigkill : Nat
deriving Repr, DecidableEq

/-- Escalated termination started at time `t`: SIGTERM at `t`, SIGKILL
scheduled `killGraceMs` later. -/
def escalate (t : Nat) : Escalation := ⟨t, t + killGraceMs⟩

/-- Result of a batch run, `{ success, output }` in the source. -/
structure RunResult where
  success : Bool
  output : String
deriving Repr, DecidableEq

/-- Regex class `\s`, also the whitespace stripped by
`String.prototype.trim` (ASCII part). -/
def isJsSpace (c : Char) : Bool :=
  c = ' ' || c = '\t' || c = '\n' || c = '\r' || c = Char.ofNat 11 || c = Char.ofNat 12

/-- JavaScript `s.trim()`: strip leading and trailing whitespace. -/
def jsTrim (s : String) : String :=
  String.mk (((s.data.dropWhile isJsSpace).reverse.dropWhile isJsSpace).reverse)

/-- The `close` handler of `execWithInput`
(`resolve(.. success: c === 0, output: (err || out).trim() || "Execution failed" ..)`).
`c` is `none` when the process was killed by a signal (JavaScript `null`);
`err || out` selects `err` exactly when it is a non-empty string. -/
def execWithInputClose (c : Option Int) (out err : String) : RunResult :=
  { success := decide (c = some 0)
    output :=
      let sel := if err = "" then out else err
      if jsTrim sel = "" then "Execution failed" else jsTrim sel }

/-- Stdin write schedule of `execWithInput`: item `x` of `inputs` is
written as `i ++ "\n"` at time `x * 100`
(`inputs.forEach((i, x) => setTimeout(() => !killed && child.stdin.write(i + "\n"), x * 100))`).
The first argument carries the index of the head item. -/
def stdinSchedule : Nat → List String → List (Nat × String)
  | _, [] => []
  | x, i :: rest => (x * 100, i ++ "\n") :: stdinSchedule (x + 1) rest

/-- Time at which `execWithInput` closes the stdin stream: immediately for
an empty input list, otherwise `inputs.length * 100 + 100`
(`setTimeout(() => child.stdin.end(), inputs.length * 100 + 100)`). -/
def stdinCloseTime (inputs : List String) : Nat :=
  if inputs.length = 0 then 0 else inputs.length * 100 + 100

/-- Modelled from the spec (section 4.3 step 8), for comparison against
`execWithInputClose`: output is stderr if non-empty else stdout, trimmed,
with the generic failure marker exactly when both streams are empty. -/
def specCloseOutput (out err : String) : String :=
  if out = "" ∧ err = "" then "Execution failed"
  else if err = "" then jsTrim out else jsTrim err

/-! Helper lemmas about the stdin schedule. -/

theorem stdinSchedule_map_snd (x : Nat) (inputs : List String) :
    (stdinSchedule x inputs).map Prod.snd = inputs.map (fun i => i ++ "\n") := by
  induction inputs generalizing x with
  | nil => rfl
  | cons i rest ih => simp [stdinSchedule, ih]

theorem stdinSchedule_time_lb (x : Nat) (inputs : List String) :
    ∀ p ∈ stdinSchedule x inputs, x * 100 ≤ p.1 := by
  induction inputs generalizing x with
  | nil => intro p hp; simp [stdinSchedule] at hp
  | cons i rest ih =>
      intro p hp
      simp only [stdinSchedule, List.mem_cons] at hp
      rcases hp with h | h
      · subst h; exact Nat.le_refl _
      · have := ih (x + 1) p h
        omega

theorem stdinSchedule_time_ub (x : Nat) (inputs : List String) :
    ∀ p ∈ stdinSchedule x inputs, p.1 + 100 ≤ (x + inputs.length) * 100 := by
  induction inputs generalizing x with
  | nil => intro p hp; simp [stdinSchedule] at hp
  | cons i rest ih =>
      intro p hp
      simp only [stdinSchedule, List.mem_cons] at hp
      rcases hp with h | h
      · subst h; simp [List.length_cons]; omega
      · have := ih (x + 1) p h
        simp [List.length_cons]
        omega

theorem stdinSchedule_pairwise (x : Nat) (inputs : List String) :
    (stdinSchedule x inputs).Pairwise (fun a b => a.1 + 100 ≤ b.1) := by
  induction inputs generalizing x with
  | nil => exact List.Pairwise.nil
  | cons i rest ih =>
      refine List.Pairwise.cons ?_ (ih (x + 1))
      intro p hp
      have := stdinSchedule_time_lb (x + 1) rest p hp
      omega

/-! Filesystem model: the contents of the scratch directory
`os.tmpdir()/proworldz-lab`, as a list of filenames relative to it. -/

/-- Scratch directory contents (filenames relative to `tempDir`). -/
abbrev FS := List String

/-- `fs.writeFileSync` (successful case): the named file now exists. -/
def insertFile (fs : FS) (name : String) : FS :=
  if name ∈ fs then fs else name :: fs

/-- JavaScript `hay.includes(needle)`: substring test. -/
def strContains (hay needle : List Char) : Bool :=
  match hay with
  | [] => needle.isEmpty
  | _ :: t => needle.isPrefixOf hay || strContains t needle

/-- JavaScript `f.includes(b)` on filenames. -/
def jsIncludes (hay needle : String) : Bool := strContains hay.data needle.data

/-- `cleanupTempFiles(b)`: delete every file in the scratch directory whose
name includes `basename(b)`
(`fs.readdirSync(tempDir).forEach(f => f.includes(path.basename(b)) && fs.unlinkSync(...))`).
`b` is already the basename here since the model works relative to `tempDir`. -/
def cleanupTempFiles (fs : FS) (b : String) : FS :=
  fs.filter (fun f => !(jsIncludes f b))

/-! Entry-symbol extraction for Java: the regex
`/public\s+class\s+(\w+)/` of `runJavaWithInput` and `startRunSession`. -/

/-- Regex class `\w`. -/
def isJsWordChar (c : Char) : Bool := c.isAlpha || c.isDigit || c = '_'

/-- Consume the literal characters `k` at the head of `cs`. -/
def matchLiteral : List Char → List Char → Option (List Char)
  | [], cs => some cs
  | _ :: _, [] => none
  | k :: ks, c :: cs => if c = k then matchLiteral ks cs else none

/-- Try to match `public\s+class\s+(\w+)` starting exactly at `cs`;
returns the captured class name. -/
def matchPublicClassHere (cs : List Char) : Option String :=
  (matchLiteral "public".data cs).bind fun r1 =>
    let sp1 := r1.takeWhile isJsSpace
    let r2 := r1.dropWhile isJsSpace
    if sp1.isEmpty then none else
    (matchLiteral "class".data r2).bind fun r3 =>
      let sp2 := r3.takeWhile isJsSpace
      let r4 := r3.dropWhile isJsSpace
      if sp2.isEmpty then none else
      let w := r4.takeWhile isJsWordChar
      if w.isEmpty then none else some (String.mk w)

/-- Scan for the first position where the pattern matches. -/
def scanPublicClass : List Char → Option String
  | [] => none
  | c :: cs =>
      match matchPublicClassHere (c :: cs) with
      | some w => some w
      | none => scanPublicClass cs

/-- `code.match(/public\s+class\s+(\w+)/)`: first captured class name, if
the pattern occurs anywhere in the source. -/
def extractPublicClass (code : String) : Option String := scanPublicClass code.data

/-! Batch execution: the runners and `runCodeWithInput`. -/

/-- Environment facts a single batch run observes: the clock reading used
for the base path, whether `fs.writeFileSync` throws (and with what
message), the compiler outcome, and the child process outcome delivered
to the `close` handler of `execWithInput`. -/
structure ExecEnv where
  now : Nat
  writeFails : Bool
  writeErrMsg : String
  compileOk : Bool
  compileErrMsg : String
  procExit : Option Int
  procOut : String
  procErr : String
deriving Repr, DecidableEq

/-- The `RunResult` a batch child-process run resolves with, per
`execWithInput`. -/
def execResult (env : ExecEnv) : RunResult :=
  execWithInputClose env.procExit env.procOut env.procErr

/-- Outcome of one batch runner: the settled promise (`Except.error` is a
thrown/escaped exception), the scratch directory afterwards, and whether a
compile was attempted and a process spawned. -/
structure BatchOut where
  result : Except String RunResult
  fs : FS
  compiled : Bool
  spawned : Bool
deriving Repr

/-- `getSupportedLanguages()`. -/
def getSupportedLanguages : List String :=
  ["c", "cpp", "python", "java", "javascript", "php", "go"]

/-- Diagnostic for an unsupported language in `runCodeWithInput`. -/
def unsupportedMsg (language : String) : String :=
  "Language \"" ++ language ++ "\" is not supported. Supported languages: " ++
    String.intercalate ", " getSupportedLanguages

/-- Diagnostic of the dead `!runners[language]` branch. -/
def noRunnerMsg (language : String) : String :=
  "No runner found for language \"" ++ language ++ "\""

/-- Interpreted runners (`runJavaScriptWithInput`, `runPythonWithInput`,
`runPHPWithInput`, `runGoWithInput`): write `base ++ ext`, then spawn via
`execWithInput`.  A throwing `writeFileSync` escapes (no try/catch). -/
def runInterpreted (ext : String) (env : ExecEnv) (fs : FS) (base : String) : BatchOut :=
  if env.writeFails then ⟨.error env.writeErrMsg, fs, false, false⟩
  else ⟨.ok (execResult env), insertFile fs (base ++ ext), false, true⟩

/-- `runJavaScriptWithInput`. -/
def runJavaScriptWithInput (env : ExecEnv) (fs : FS) (base _code : String)
    (_inputs : List String) : BatchOut := runInterpreted ".js" env fs base

/-- `runPythonWithInput`. -/
def runPythonWithInput (env : ExecEnv) (fs : FS) (base _code : String)
    (_inputs : List String) : BatchOut := runInterpreted ".py" env fs base

/-- `runPHPWithInput`. -/
def runPHPWithInput (env : ExecEnv) (fs : FS) (base _code : String)
    (_inputs : List String) : BatchOut := runInterpreted ".php" env fs base

/-- `runGoWithInput` (`go run` performs its own compilation elsewhere; the
code does no separate compile step). -/
def runGoWithInput (env : ExecEnv) (fs : FS) (base _code : String)
    (_inputs : List String) : BatchOut := runInterpreted ".go" env fs base

/-- `runCWithInput` / `runCppWithInput` via `compileAndRun`: write the
source, compile to `base ++ ".exe"`; a compile error resolves
`{ success:false, output: stderr || message }` without spawning. -/
def runCompiled (srcExt : String) (env : ExecEnv) (fs : FS) (base : String) : BatchOut :=
  if env.writeFails then ⟨.error env.writeErrMsg, fs, false, false⟩
  else
    let fs1 := insertFile fs (base ++ srcExt)
    if env.compileOk then
      ⟨.ok (execResult env), insertFile fs1 (base ++ ".exe"), true, true⟩
    else
      ⟨.ok ⟨false, env.compileErrMsg⟩, fs1, true, false⟩

/-- `runCWithInput`. -/
def runCWithInput (env : ExecEnv) (fs : FS) (base _code : String)
    (_inputs : List String) : BatchOut := runCompiled ".c" env fs base

/-- `runCppWithInput`. -/
def runCppWithInput (env : ExecEnv) (fs : FS) (base _code : String)
    (_inputs : List String) : BatchOut := runCompiled ".cpp" env fs base

/-- Post-extraction part of `runJavaWithInput`: write `ClassName.java` in
the scratch directory (not at the base path), compile with `javac`, then
run.  The whole synchronous part of `runJavaWithInput` sits in a
try/catch that resolves `{ success:false, output: error.message }`, so a
throwing write does not escape. -/
def runJavaCompileAndRun (env : ExecEnv) (fs : FS) (className : String) : BatchOut :=
  if env.writeFails then ⟨.ok ⟨false, env.writeErrMsg⟩, fs, false, false⟩
  else
    let fs1 := insertFile fs (className ++ ".java")
    if env.compileOk then
      ⟨.ok (execResult env), insertFile fs1 (className ++ ".class"), true, true⟩
    else
      ⟨.ok ⟨false, env.compileErrMsg⟩, fs1, true, false⟩

/-- `runJavaWithInput` (see `runJavaCompileAndRun` for the part after the
class-name extraction succeeds). -/
def runJavaWithInput (env : ExecEnv) (fs : FS) (_base code : String)
    (_inputs : List String) : BatchOut :=
  match extractPublicClass code with
  | none => ⟨.ok ⟨false, "No public class found"⟩, fs, false, false⟩
  | some className => runJavaCompileAndRun env fs className

/-- The `runners` table of `runCodeWithInput`. -/
def batchRunner (language : String) :
    Option (ExecEnv → FS → String → String → List String → BatchOut) :=
  match language with
  | "javascript" => some runJavaScriptWithInput
  | "python" => some runPythonWithInput
  | "java" => some runJavaWithInput
  | "c" => some runCWithInput
  | "cpp" => some runCppWithInput
  | "go" => some runGoWithInput
  | "php" => some runPHPWithInput
  | _ => none

/-- Base path of a batch run (`path.join(tempDir, `temp_${t}`)` with
`t = Date.now()`), as a name relative to `tempDir`. -/
def batchBaseName (t : Nat) : String := "temp_" ++ Nat.repr t

/-- `runCodeWithInput(language, code, inputs)`: unsupported languages are
rejected before the try block (no cleanup); otherwise the selected runner
runs inside `try { ... } finally { cleanupTempFiles(base) }`, so the sweep
happens whether the runner resolves or throws. -/
def runCodeWithInput (env : ExecEnv) (fs : FS) (language code : String)
    (inputs : List String) : Except String RunResult × FS :=
  if (getSupportedLanguages.contains language) = false then
    (.ok ⟨false, unsupportedMsg language⟩, fs)
  else
    let base := batchBaseName env.now
    match batchRunner language with
    | none => (.ok ⟨false, noRunnerMsg language⟩, cleanupTempFiles fs base)
    | some runner =>
        let o := runner env fs base code inputs
        (o.result, cleanupTempFiles o.fs base)

/-- A settled (non-throwing) promise. -/
def isResolved : Except String RunResult → Bool
  | .ok _ => true
  | .error _ => false

/-! Interactive sessions: the `runSessions` map, `registerRunSession`,
`stopRunSession`, `startRunSession` and the `send-input` / `stop-run`
handlers. -/

/-- Idle timeout of `registerRunSession` (`setTimeout(..., 120000)`). -/
def idleLimitMs : Nat := 120000

/-- One entry of the `runSessions` map, as the `send-input` handler
observes it: process liveness and stdin writability, everything written to
stdin so far, and the absolute deadline of the armed idle timer. -/
structure SessionRec where
  killed : Bool
  stdinWritable : Bool
  written : List String
  deadline : Option Nat
deriving Repr, DecidableEq

/-- The `runSessions` map. -/
abbrev SessTable := List (String × SessionRec)

/-- `runSessions.delete(sessionId)`. -/
def tableDelete : SessTable → String → SessTable
  | [], _ => []
  | (k, v) :: t, sid =>
      if k = sid then tableDelete t sid else (k, v) :: tableDelete t sid

/-- In-place mutation of the record stored under `sid`. -/
def tableUpdate : SessTable → String → (SessionRec → SessionRec) → SessTable
  | [], _, _ => []
  | (k, v) :: t, sid, f =>
      if k = sid then (k, f v) :: tableUpdate t sid f
      else (k, v) :: tableUpdate t sid f

/-- The record `registerRunSession` installs: live process, writable stdin,
idle timer armed for the full threshold (`resetTimer()` runs at
registration). -/
def newSessionRec (now : Nat) : SessionRec :=
  { killed := false, stdinWritable := true, written := [], deadline := some (now + idleLimitMs) }

/-- Reply of the `send-input` IPC handler. -/
inductive SendReply
  | ok
  | err (msg : String)
deriving Repr, DecidableEq

/-- The `send-input` handler: missing session, killed process or
unwritable stdin reply the error text `No active session.`; otherwise
`(d.input ?? "") + "\n"` is written and the idle timer is reset for the
full threshold. -/
def sendInputHandler (table : SessTable) (sid : String) (input : Option String)
    (now : Nat) : SendReply × SessTable :=
  match table.lookup sid with
  | none => (.err "No active session.", table)
  | some s =>
      if s.killed || !s.stdinWritable then (.err "No active session.", table)
      else
        (.ok, tableUpdate table sid (fun r =>
          { r with written := r.written ++ [(input.getD "") ++ "\n"]
                   deadline := some (now + idleLimitMs) }))

/-- Outcome of `stopRunSession`: the boolean the `stop-run` handler wraps
as `{ ok }`, the signals sent, the table afterwards, and the files it
unlinked (none: teardown is left to the exit event). -/
structure StopOutcome where
  ok : Bool
  signals : Option Escalation
  table : SessTable
  unlinked : List String
deriving Repr, DecidableEq

/-- `stopRunSession(sessionId)`: unknown id returns `false` with no side
effect; otherwise SIGTERM now, SIGKILL scheduled `killGraceMs` later,
return `true`.  The table entry and the artifacts are untouched. -/
def stopRunSession (table : SessTable) (sid : String) (now : Nat) : StopOutcome :=
  match table.lookup sid with
  | none => ⟨false, none, table, []⟩
  | some _ => ⟨true, some (escalate now), table, []⟩

/-! Event machine for a set of registered sessions: stream data, process
close, and the two IPC handlers, in the order the single-threaded event
loop delivers them. -/

/-- Events the orchestrator processes after sessions are registered. -/
inductive SEvent
  | outData (sid data : String) (t : Nat)
  | closeEv (sid : String) (code : Option Int)
  | sendInputEv (sid : String) (input : Option String) (t : Nat)
  | stopEv (sid : String) (t : Nat)
deriving Repr, DecidableEq

/-- Machine state: the session table plus the `run-exit` events emitted so
far (in emission order). -/
structure SMState where
  table : SessTable
  exits : List (String × Option Int)
deriving Repr, DecidableEq

/-- One event-loop step.  The `close` handler of `registerRunSession`
clears the timer, runs the cleanup closure, deletes the table entry and
only then emits the `run-exit` event (`runSessions.delete(sessionId);
sendRunExit(...)`), so the emitted event observes the entry already
gone. -/
def stepS (st : SMState) : SEvent → SMState
  | .outData sid _ t =>
      { st with table :=
          tableUpdate st.table sid (fun r => { r with deadline := some (t + idleLimitMs) }) }
  | .closeEv sid code =>
      { table := tableDelete st.table sid, exits := st.exits ++ [(sid, code)] }
  | .sendInputEv sid input t =>
      { st with table := (sendInputHandler st.table sid input t).2 }
  | .stopEv sid t =>
      { st with table := (stopRunSession st.table sid t).table }

/-- Run the event loop over a list of events. -/
def runS (st : SMState) (es : List SEvent) : SMState := es.foldl stepS st

/-- Number of `close` deliveries for `sid` in a trace. -/
def countClosesFor (sid : String) : List SEvent → Nat
  | [] => 0
  | .closeEv s _ :: es => (if s = sid then 1 else 0) + countClosesFor sid es
  | _ :: es => countClosesFor sid es

/-- Number of `run-exit` events emitted for `sid`. -/
def countExitsFor (sid : String) : List (String × Option Int) → Nat
  | [] => 0
  | p :: es => (if p.1 = sid then 1 else 0) + countExitsFor sid es

/-! Idle-timer model for one session (`registerRunSession` /
`resetTimer`). -/

/-- State of one idle timer: the absolute deadline of the armed
`setTimeout` (`none` after `clearTimeout`), and whether teardown (the
`close` handler) has run. -/
structure IdleState where
  deadline : Option Nat
  torndown : Bool
deriving Repr, DecidableEq

/-- `resetTimer()` at time `now`: clear the pending timer and arm it for
the full threshold. -/
def resetIdleTimer (now : Nat) (st : IdleState) : IdleState :=
  { st with deadline := some (now + idleLimitMs) }

/-- What happens to the timer: activity (a stdout/stderr chunk or a
`send-input` write) calls `resetTimer`; teardown (the `close` handler)
calls `clearTimeout` and never re-arms. -/
inductive IdleEvent
  | activity (t : Nat)
  | teardown (t : Nat)
deriving Repr, DecidableEq

/-- One timer transition. -/
def stepIdle (st : IdleState) : IdleEvent → IdleState
  | .activity t => resetIdleTimer t st
  | .teardown _ => { deadline := none, torndown := true }

/-- Timer state after a sequence of events. -/
def runIdle (st : IdleState) (es : List IdleEvent) : IdleState := es.foldl stepIdle st

/-- Timer state right after `registerRunSession` at time `t0`
(`resetTimer()` is called once at registration). -/
def initIdle (t0 : Nat) : IdleState := resetIdleTimer t0 ⟨none, false⟩

/-- If the armed timer expires (no further event before its deadline), the
callback runs `stopRunSession(sessionId, true)`: escalated termination at
the deadline. -/
def idleExpiry (st : IdleState) : Option Escalation := st.deadline.map escalate

/-- Trace contains no teardown event. -/
def noTeardown (es : List IdleEvent) : Bool :=
  es.all fun e => match e with | .activity _ => true | .teardown _ => false

/-- Trace contains no activity event. -/
def noActivity (es : List IdleEvent) : Bool :=
  es.all fun e => match e with | .activity _ => false | .teardown _ => true

/-- Time of the last activity event, `t0` when there is none. -/
def lastActivity (t0 : Nat) (es : List IdleEvent) : Nat :=
  es.foldl (fun acc e => match e with | .activity t => t | .teardown _ => acc) t0

/-! Base-path allocation (`runCodeWithInput` line 192 and
`startRunSession` line 280). -/

/-- Base path of an interactive session:
`path.join(tempDir, `temp_${Date.now()}_${Math.random().toString(36).slice(2, 6)}`)`. -/
def sessionBaseName (t : Nat) (rand : String) : String :=
  "temp_" ++ Nat.repr t ++ "_" ++ rand

/-- Which entry operation allocated the base path. -/
inductive AllocKind
  | batch
  | session
deriving Repr, DecidableEq

/-- One allocation: the kind, the `Date.now()` reading, and the random
suffix the allocator drew (batch allocation draws none and ignores it). -/
structure AllocCall where
  kind : AllocKind
  time : Nat
  rand : String
deriving Repr, DecidableEq

/-- Base path produced by an allocation. -/
def allocBasePath : AllocCall → String
  | ⟨.batch, t, _⟩ => batchBaseName t
  | ⟨.session, t, r⟩ => sessionBaseName t r

/-! `startRunSession(language, code)`. -/

/-- Environment facts one `startRunSession` call observes: the clock, the
random suffix drawn for the base path, the generated session id, whether
`fs.writeFileSync` throws (with the `error.toString()` text), and the
compiler outcome (`execPromise` rejection text).  Spawn itself is modelled
as always yielding a process handle. -/
structure StartEnv where
  now : Nat
  rand : String
  sid : String
  writeFails : Bool
  writeErrMsg : String
  compileOk : Bool
  compileErrMsg : String
deriving Repr, DecidableEq

/-- Result of `startRunSession`, plus the table and scratch directory
afterwards and whether a compile was attempted and a process spawned. -/
structure StartOut where
  res : Except String String
  table : SessTable
  fs : FS
  compiled : Bool
  spawned : Bool
deriving Repr

/-- Interpreted-language branch of `startRunSession`: write the file,
spawn, assign the cleanup closure, register.  A throwing write is caught
(`catch`), and since `cleanup` is still `null` there, nothing is deleted. -/
def startInterpreted (senv : StartEnv) (table : SessTable) (fs : FS)
    (file : String) : StartOut :=
  if senv.writeFails then ⟨.error senv.writeErrMsg, table, fs, false, false⟩
  else
    ⟨.ok senv.sid, (senv.sid, newSessionRec senv.now) :: table,
      insertFile fs file, false, true⟩

/-- Compiled-language branch (`c` / `cpp`, non-Windows binary suffix
`.out`): write the source, `await execPromise(compiler)`, spawn, register.
A rejected compile is caught before `cleanup` is assigned, so the written
source is not deleted. -/
def startCompiled (senv : StartEnv) (table : SessTable) (fs : FS)
    (src out : String) : StartOut :=
  if senv.writeFails then ⟨.error senv.writeErrMsg, table, fs, false, false⟩
  else if senv.compileOk then
    ⟨.ok senv.sid, (senv.sid, newSessionRec senv.now) :: table,
      insertFile (insertFile fs src) out, true, true⟩
  else ⟨.error senv.compileErrMsg, table, insertFile fs src, true, false⟩

/-- `startRunSession`: unsupported languages are rejected with the
enumerated diagnostic; the Java branch fails fast with
`No public class found. Java requires a public class name to run.` before
any write, compile or spawn when the regex finds no public class. -/
def startRunSession (senv : StartEnv) (table : SessTable) (fs : FS)
    (language code : String) : StartOut :=
  if (getSupportedLanguages.contains language) = false then
    ⟨.error (unsupportedMsg language), table, fs, false, false⟩
  else
    let base := sessionBaseName senv.now senv.rand
    match language with
    | "javascript" => startInterpreted senv table fs (base ++ ".js")
    | "python" => startInterpreted senv table fs (base ++ ".py")
    | "php" => startInterpreted senv table fs (base ++ ".php")
    | "go" => startInterpreted senv table fs (base ++ ".go")
    | "c" => startCompiled senv table fs (base ++ ".c") (base ++ ".out")
    | "cpp" => startCompiled senv table fs (base ++ ".cpp") (base ++ ".out")
    | "java" =>
        match extractPublicClass code with
        | none =>
            ⟨.error "No public class found. Java requires a public class name to run.",
              table, fs, false, false⟩
        | some className =>
            startCompiled senv table fs (className ++ ".java") (className ++ ".class")
    | _ => ⟨.error (noRunnerMsg language), table, fs, false, false⟩

/-! Helper lemmas about the session table and the event machine. -/

theorem lookup_cons_self (k : String) (v : SessionRec) (t : SessTable) :
    List.lookup k ((k, v) :: t) = some v := by
  simp [List.lookup]

theorem lookup_cons_ne (a k : String) (v : SessionRec) (t : SessTable)
    (h : a ≠ k) : List.lookup a ((k, v) :: t) = List.lookup a t := by
  have hb : (a == k) = false := by
    cases hc : a == k with
    | false => rfl
    | true => exact absurd (by simpa using hc) h
  simp [List.lookup, hb]

theorem lookup_tableDelete_self (table : SessTable) (sid : String) :
    List.lookup sid (tableDelete table sid) = none := by
  induction table with
  | nil => rfl
  | cons p t ih =>
      obtain ⟨k, v⟩ := p
      by_cases h : k = sid
      · rw [show tableDelete ((k, v) :: t) sid = tableDelete t sid from by
          simp [tableDelete, h]]
        exact ih
      · rw [show tableDelete ((k, v) :: t) sid = (k, v) :: tableDelete t sid from by
          simp [tableDelete, h]]
        rw [lookup_cons_ne sid k v _ (fun hc => h hc.symm)]
        exact ih

theorem lookup_tableDelete_of_none (table : SessTable) (sid s : String)
    (h : List.lookup sid table = none) :
    List.lookup sid (tableDelete table s) = none := by
  induction table with
  | nil => rfl
  | cons p t ih =>
      obtain ⟨k, v⟩ := p
      by_cases hks : sid = k
      · rw [hks, lookup_cons_self] at h
        exact absurd h (by simp)
      · rw [lookup_cons_ne sid k v t hks] at h
        by_cases hkd : k = s
        · rw [show tableDelete ((k, v) :: t) s = tableDelete t s from by
            simp [tableDelete, hkd]]
          exact ih h
        · rw [show tableDelete ((k, v) :: t) s = (k, v) :: tableDelete t s from by
            simp [tableDelete, hkd]]
          rw [lookup_cons_ne sid k v _ hks]
          exact ih h

theorem lookup_tableUpdate_of_none (table : SessTable) (sid s : String)
    (f : SessionRec → SessionRec) (h : List.lookup sid table = none) :
    List.lookup sid (tableUpdate table s f) = none := by
  induction table with
  | nil => rfl
  | cons p t ih =>
      obtain ⟨k, v⟩ := p
      by_cases hks : sid = k
      · rw [hks, lookup_cons_self] at h
        exact absurd h (by simp)
      · rw [lookup_cons_ne sid k v t hks] at h
        by_cases hku : k = s
        · rw [show tableUpdate ((k, v) :: t) s f = (k, f v) :: tableUpdate t s f from by
            simp [tableUpdate, hku]]
          rw [lookup_cons_ne sid k (f v) _ hks]
          exact ih h
        · rw [show tableUpdate ((k, v) :: t) s f = (k, v) :: tableUpdate t s f from by
            simp [tableUpdate, hku]]
          rw [lookup_cons_ne sid k v _ hks]
          exact ih h

theorem lookup_tableUpdate_self (table : SessTable) (sid : String)
    (f : SessionRec → SessionRec) (s : SessionRec)
    (h : List.lookup sid table = some s) :
    List.lookup sid (tableUpdate table sid f) = some (f s) := by
  induction table with
  | nil => simp [List.lookup] at h
  | cons p t ih =>
      obtain ⟨k, v⟩ := p
      by_cases hks : sid = k
      · subst hks
        rw [lookup_cons_self] at h
        have hv : v = s := by simpa using h
        rw [show tableUpdate ((sid, v) :: t) sid f = (sid, f v) :: tableUpdate t sid f from by
          simp [tableUpdate]]
        rw [lookup_cons_self, hv]
      · rw [lookup_cons_ne sid k v t hks] at h
        by_cases hku : k = sid
        · exact absurd hku (fun hc => hks hc.symm)
        · rw [show tableUpdate ((k, v) :: t) sid f = (k, v) :: tableUpdate t sid f from by
            simp [tableUpdate, hku]]
          rw [lookup_cons_ne sid k v _ hks]
          exact ih h

theorem stopRunSession_table_eq (table : SessTable) (sid : String) (now : Nat) :
    (stopRunSession table sid now).table = table := by
  unfold stopRunSession
  cases List.lookup sid table <;> rfl

theorem sendInputHandler_lookup_none (table : SessTable) (sid s : String)
    (input : Option String) (now : Nat) (h : List.lookup sid table = none) :
    List.lookup sid (sendInputHandler table s input now).2 = none := by
  unfold sendInputHandler
  cases List.lookup s table with
  | none => exact h
  | some r =>
      cases hks : (r.killed || !r.stdinWritable) with
      | true => simpa [hks] using h
      | false => simpa [hks] using lookup_tableUpdate_of_none table sid s _ h

theorem stepS_lookup_none (st : SMState) (e : SEvent) (sid : String)
    (h : List.lookup sid st.table = none) :
    List.lookup sid (stepS st e).table = none := by
  cases e with
  | outData s d t => exact lookup_tableUpdate_of_none st.table sid s _ h
  | closeEv s c => exact lookup_tableDelete_of_none st.table sid s h
  | sendInputEv s input t => exact sendInputHandler_lookup_none st.table sid s input t h
  | stopEv s t =>
      show List.lookup sid (stopRunSession st.table s t).table = none
      rw [stopRunSession_table_eq]
      exact h

theorem runS_lookup_none (st : SMState) (es : List SEvent) (sid : String)
    (h : List.lookup sid st.table = none) :
    List.lookup sid (runS st es).table = none := by
  induction es generalizing st with
  | nil => exact h
  | cons e es ih => exact ih (stepS st e) (stepS_lookup_none st e sid h)

theorem countExitsFor_append (sid : String) (a b : List (String × Option Int)) :
    countExitsFor sid (a ++ b) = countExitsFor sid a + countExitsFor sid b := by
  induction a with
  | nil => simp [countExitsFor]
  | cons p t ih =>
      show (if p.1 = sid then 1 else 0) + countExitsFor sid (t ++ b) =
        ((if p.1 = sid then 1 else 0) + countExitsFor sid t) + countExitsFor sid b
      rw [ih]
      omega

theorem runS_exits (st : SMState) (es : List SEvent) (sid : String) :
    countExitsFor sid (runS st es).exits =
      countExitsFor sid st.exits + countClosesFor sid es := by
  induction es generalizing st with
  | nil => simp [runS, countClosesFor]
  | cons e es ih =>
      have h1 : runS st (e :: es) = runS (stepS st e) es := rfl
      rw [h1, ih]
      cases e with
      | closeEv s c =>
          simp only [stepS, countClosesFor, countExitsFor_append, countExitsFor]
          omega
      | outData s d t => simp [stepS, countClosesFor]
      | sendInputEv s input t => simp [stepS, countClosesFor]
      | stopEv s t => simp [stepS, countClosesFor]

/-! Helper lemmas about the idle-timer machine. -/

theorem runIdle_noTeardown (t0 : Nat) (es : List IdleEvent) (h : noTeardown es = true) :
    runIdle (initIdle t0) es = initIdle (lastActivity t0 es) := by
  induction es generalizing t0 with
  | nil => rfl
  | cons e es ih =>
      cases e with
      | activity t =>
          have h' : noTeardown es = true := by
            simpa [noTeardown] using h
          show runIdle (stepIdle (initIdle t0) (IdleEvent.activity t)) es
            = initIdle (lastActivity t0 (IdleEvent.activity t :: es))
          have hstep : stepIdle (initIdle t0) (IdleEvent.activity t) = initIdle t := rfl
          have hlast : lastActivity t0 (IdleEvent.activity t :: es) = lastActivity t es := rfl
          rw [hstep, hlast]
          exact ih t h'
      | teardown t =>
          exact absurd h (by simp [noTeardown])

theorem runIdle_torndown (es : List IdleEvent) (h : noActivity es = true) :
    runIdle ⟨none, true⟩ es = ⟨none, true⟩ := by
  induction es with
  | nil => rfl
  | cons e es ih =>
      cases e with
      | activity t => exact absurd h (by simp [noActivity])
      | teardown t =>
          have h' : noActivity es = true := by
            simpa [noActivity] using h
          exact ih h'

/-- C4: the idle timer.  While no teardown has happened, the armed
deadline after any activity trace is exactly the last activity time plus
the full 120,000 threshold (each activity cancels and fully re-arms), and
if no further event arrives the timer expires into escalated termination
at that deadline; once teardown runs, the timer is cleared and — absent
activity, which cannot occur after the close event — never re-arms. -/
theorem idle_timeout_contract (t0 t : Nat) (es es1 es2 : List IdleEvent) :
    (noTeardown es = true →
      (runIdle (initIdle t0) es).deadline = some (lastActivity t0 es + idleLimitMs)
      ∧ idleExpiry (runIdle (initIdle t0) es)
          = some (escalate (lastActivity t0 es + idleLimitMs)))
    ∧ (noActivity es2 = true →
      (runIdle (initIdle t0) (es1 ++ IdleEvent.teardown t :: es2)).deadline = none
      ∧ (runIdle (initIdle t0) (es1 ++ IdleEvent.teardown t :: es2)).torndown = true
      ∧ idleExpiry (runIdle (initIdle t0) (es1 ++ IdleEvent.teardown t :: es2)) = none) := by
  constructor
  · intro h
    rw [runIdle_noTeardown t0 es h]
    exact ⟨rfl, rfl⟩
  · intro h
    have hsplit : runIdle (initIdle t0) (es1 ++ IdleEvent.teardown t :: es2)
        = runIdle (stepIdle (runIdle (initIdle t0) es1) (IdleEvent.teardown t)) es2 := by
      unfold runIdle
      rw [List.foldl_append]
      rfl
    have hstep : stepIdle (runIdle (initIdle t0) es1) (IdleEvent.teardown t)
        = ⟨none, true⟩ := rfl
    rw [hsplit, hstep, runIdle_torndown es2 h]
    exact ⟨rfl, rfl, rfl⟩

/-- C4 witness: activity at 40 then 70 re-arms the timer to 70 + 120000
and expiry escalates there; a teardown at 90 clears it for good. -/
theorem idle_timeout_contract_witness :
    ((runIdle (initIdle 0) [IdleEvent.activity 40, IdleEvent.activity 70]).deadline
        = some (70 + idleLimitMs)
      ∧ idleExpiry (runIdle (initIdle 0) [IdleEvent.activity 40, IdleEvent.activity 70])
        = some (escalate (70 + idleLimitMs)))
    ∧ ((runIdle (initIdle 0)
          ([IdleEvent.activity 40] ++ IdleEvent.teardown 90 :: [])).deadline = none
      ∧ (runIdle (initIdle 0)
          ([IdleEvent.activity 40] ++ IdleEvent.teardown 90 :: [])).torndown = true
      ∧ idleExpiry (runIdle (initIdle 0)
          ([IdleEvent.activity 40] ++ IdleEvent.teardown 90 :: [])) = none) :=
  ⟨(idle_timeout_contract 0 90 [IdleEvent.activity 40, IdleEvent.activity 70]
      [IdleEvent.activity 40] []).1 (by decide),
   (idle_timeout_contract 0 90 [IdleEvent.activity 40, IdleEvent.activity 70]
      [IdleEvent.activity 40] []).2 (by decide)⟩

/-- C5 counterexample: the claim places the generic marker only when both
streams are empty, but with stdout `"hello"` and a whitespace-only stderr
the close handler selects stderr (non-empty, hence truthy), trims it to
empty, and emits the marker — neither the trimmed selection nor stdout. -/
theorem batch_result_spec_counterexample :
    (execWithInputClose (some 1) "hello" " ").output = "Execution failed"
    ∧ specCloseOutput "hello" " " = ""
    ∧ ¬((execWithInputClose (some 1) "hello" " ").output
        = specCloseOutput "hello" " ") := by
  decide

/-- C5 (amended): on normal exit success = (exit code == 0) and a
signal-killed process (null exit code, as after the 10,000 ms timeout) is
marked failed; the output is the preferred stream (stderr when non-empty,
else stdout) trimmed, with the marker `Execution failed` whenever that
trimmed selection is empty — including a whitespace-only preferred stream,
not only when both streams are empty; the timeout escalates termination at
10,000 ms with the forced kill 1,000 ms later. -/
theorem batch_exit_result (c : Int) (out err : String) :
    ((execWithInputClose (some c) out err).success = true ↔ c = 0)
    ∧ (execWithInputClose none out err).success = false
    ∧ (err ≠ "" → (execWithInputClose (some c) out err).output
        = (if jsTrim err = "" then "Execution failed" else jsTrim err))
    ∧ (err = "" → (execWithInputClose (some c) out err).output
        = (if jsTrim out = "" then "Execution failed" else jsTrim out))
    ∧ escalate execTimeoutMs = ⟨10000, 11000⟩ := by
  refine ⟨?_, rfl, ?_, ?_, rfl⟩
  · simp [execWithInputClose]
  · intro h
    simp [execWithInputClose, h]
  · intro h
    simp [execWithInputClose, h]

/-- C5 witness: a failing exit with diagnostic on stderr, and an exit with
both streams blank falling back to the marker. -/
theorem batch_exit_result_witness :
    ((execWithInputClose (some 2) "out text" "err text").success = true ↔ (2 : Int) = 0)
    ∧ (execWithInputClose (some 2) "out text" "err text").output
        = (if jsTrim "err text" = "" then "Execution failed" else jsTrim "err text")
    ∧ (execWithInputClose (some 0) "  " "").output
        = (if jsTrim "  " = "" then "Execution failed" else jsTrim "  ") :=
  ⟨(batch_exit_result 2 "out text" "err text").1,
   (batch_exit_result 2 "out text" "err text").2.2.1 (by decide),
   (batch_exit_result 0 "  " "").2.2.2.1 rfl⟩

/-- C9 counterexample: with one scripted input the single write is
scheduled at 0, but stdin closes at `1 * 100 + 100 = 200`, not 100
time-units after the last write as claimed. -/
theorem scripted_close_counterexample :
    stdinSchedule 0 ["a"] = [(0, "a\n")]
    ∧ stdinCloseTime ["a"] = 200
    ∧ ¬(stdinCloseTime ["a"] = 0 + 100) := by
  decide

/-- C9 (amended): scripted inputs are scheduled in declaration order, each
as the item plus a line terminator, item `x` at `x * 100`, consecutive
items 100 time-units apart (no item before the previous delay elapsed; a
slot is skipped only if the 10,000 ms timeout already killed the run); the
stdin stream closes at `length * 100 + 100` — 200 time-units after the
last scheduled write — or immediately for an empty list. -/
theorem scripted_inputs_schedule (inputs : List String) :
    (stdinSchedule 0 inputs).map Prod.snd = inputs.map (fun i => i ++ "\n")
    ∧ (stdinSchedule 0 inputs).Pairwise (fun a b => a.1 + 100 ≤ b.1)
    ∧ (inputs ≠ [] → stdinCloseTime inputs = inputs.length * 100 + 100
        ∧ ∀ p ∈ stdinSchedule 0 inputs, p.1 + 200 ≤ stdinCloseTime inputs)
    ∧ (inputs = [] → stdinCloseTime inputs = 0) := by
  refine ⟨stdinSchedule_map_snd 0 inputs, stdinSchedule_pairwise 0 inputs, ?_, ?_⟩
  · intro hne
    have hlen : inputs.length ≠ 0 := by
      simpa [List.length_eq_zero] using hne
    have hclose : stdinCloseTime inputs = inputs.length * 100 + 100 := by
      unfold stdinCloseTime
      rw [if_neg hlen]
    refine ⟨hclose, ?_⟩
    intro p hp
    have := stdinSchedule_time_ub 0 inputs p hp
    rw [hclose]
    omega
  · intro he
    subst he
    rfl

/-- C9 witness: for inputs `a`, `b` the schedule is `a` then `b`, 100
apart, and stdin closes at 300 — 200 after the last write at 100. -/
theorem scripted_inputs_schedule_witness :
    stdinCloseTime ["a", "b"] = 2 * 100 + 100
    ∧ (∀ p ∈ stdinSchedule 0 ["a", "b"], p.1 + 200 ≤ stdinCloseTime ["a", "b"])
    ∧ stdinCloseTime [] = 0 :=
  ⟨by
    have h := ((scripted_inputs_schedule ["a", "b"]).2.2.1 (by decide)).1
    simpa using h,
   ((scripted_inputs_schedule ["a", "b"]).2.2.1 (by decide)).2,
   (scripted_inputs_schedule []).2.2.2 rfl⟩

/-! Claim theorems. -/

/-- C3: the close handler removes the session-table entry before emitting
the exit event, so once an exit event for `sid` has been observed, any
later `send-input` or `stop-run` call for `sid` finds no session, and the
machine emits exactly one exit event per close delivery (the process
`close` event fires once per process). -/
theorem close_teardown_then_notfound (table0 : SessTable) (es1 es2 : List SEvent)
    (sid : String) (code : Option Int) (input : Option String) (now t : Nat) :
    List.lookup sid (runS ⟨table0, []⟩ (es1 ++ SEvent.closeEv sid code :: es2)).table = none
    ∧ (sendInputHandler (runS ⟨table0, []⟩ (es1 ++ SEvent.closeEv sid code :: es2)).table
        sid input now).1 = SendReply.err "No active session."
    ∧ (stopRunSession (runS ⟨table0, []⟩ (es1 ++ SEvent.closeEv sid code :: es2)).table
        sid t).ok = false
    ∧ countExitsFor sid (runS ⟨table0, []⟩ (es1 ++ SEvent.closeEv sid code :: es2)).exits
        = countClosesFor sid (es1 ++ SEvent.closeEv sid code :: es2) := by
  have hsplit :
      runS ⟨table0, []⟩ (es1 ++ SEvent.closeEv sid code :: es2)
        = runS (stepS (runS ⟨table0, []⟩ es1) (SEvent.closeEv sid code)) es2 := by
    unfold runS
    rw [List.foldl_append]
    rfl
  have h1 : List.lookup sid
      (runS ⟨table0, []⟩ (es1 ++ SEvent.closeEv sid code :: es2)).table = none := by
    rw [hsplit]
    exact runS_lookup_none _ es2 sid
      (lookup_tableDelete_self (runS ⟨table0, []⟩ es1).table sid)
  refine ⟨h1, ?_, ?_, ?_⟩
  · unfold sendInputHandler
    rw [h1]
  · unfold stopRunSession
    rw [h1]
  · have := runS_exits ⟨table0, []⟩ (es1 ++ SEvent.closeEv sid code :: es2) sid
    simpa [countExitsFor] using this

/-- C8: `send-input` with an id absent from the table fails with the
no-active-session error; with a killed process or an unwritable stdin it
also fails with that error (an error reply, never a silent drop);
otherwise it replies ok, appends the text plus a newline to the stdin
stream and re-arms the idle timer for the full threshold. -/
theorem send_input_contract (table : SessTable) (sid : String) (input : Option String)
    (now : Nat) (s : SessionRec) :
    (List.lookup sid table = none →
      sendInputHandler table sid input now = (SendReply.err "No active session.", table))
    ∧ (List.lookup sid table = some s → (s.killed = true ∨ s.stdinWritable = false) →
      sendInputHandler table sid input now = (SendReply.err "No active session.", table))
    ∧ (List.lookup sid table = some s → s.killed = false → s.stdinWritable = true →
      (sendInputHandler table sid input now).1 = SendReply.ok
      ∧ List.lookup sid (sendInputHandler table sid input now).2 =
          some { s with written := s.written ++ [(input.getD "") ++ "\n"]
                        deadline := some (now + idleLimitMs) }) := by
  refine ⟨?_, ?_, ?_⟩
  · intro h
    unfold sendInputHandler
    rw [h]
  · intro h hks
    have hc : (s.killed || !s.stdinWritable) = true := by
      rcases hks with h1 | h1 <;> simp [h1]
    unfold sendInputHandler
    rw [h]
    simp [hc]
  · intro h hk hw
    have hc : (s.killed || !s.stdinWritable) = false := by simp [hk, hw]
    constructor
    · unfold sendInputHandler
      rw [h]
      simp [hc]
    · have hupd := lookup_tableUpdate_self table sid
        (fun r => { r with written := r.written ++ [(input.getD "") ++ "\n"]
                           deadline := some (now + idleLimitMs) }) s h
      unfold sendInputHandler
      rw [h]
      simpa [hc] using hupd

/-- C8 witness: concrete sessions exercising all three branches. -/
theorem send_input_contract_witness :
    (sendInputHandler [] "s1" (some "x") 7
        = (SendReply.err "No active session.", [])
      ∧ sendInputHandler [("s1", ⟨true, true, [], some 3⟩)] "s1" (some "x") 7
        = (SendReply.err "No active session.", [("s1", ⟨true, true, [], some 3⟩)])
      ∧ ((sendInputHandler [("s1", ⟨false, true, [], some 3⟩)] "s1" (some "x") 7).1
          = SendReply.ok
        ∧ List.lookup "s1"
            (sendInputHandler [("s1", ⟨false, true, [], some 3⟩)] "s1" (some "x") 7).2
          = some ⟨false, true, ["x\n"], some (7 + idleLimitMs)⟩)) :=
  ⟨(send_input_contract [] "s1" (some "x") 7 ⟨false, true, [], some 3⟩).1 (by rfl),
   (send_input_contract [("s1", ⟨true, true, [], some 3⟩)] "s1" (some "x") 7
      ⟨true, true, [], some 3⟩).2.1 (by rfl) (Or.inl rfl),
   (send_input_contract [("s1", ⟨false, true, [], some 3⟩)] "s1" (some "x") 7
      ⟨false, true, [], some 3⟩).2.2 (by rfl) rfl rfl⟩

/-- C10: `stopRunSession` on an unknown id returns `false` (the handler
replies `{ ok: false }`) with no signal, no deletion and the table
unchanged; on a known id it returns `true`, escalates termination, and
leaves the table entry and the artifacts for the exit event to tear
down. -/
theorem stop_run_contract (table : SessTable) (sid : String) (now : Nat) (s : SessionRec) :
    (List.lookup sid table = none →
      stopRunSession table sid now = ⟨false, none, table, []⟩)
    ∧ (List.lookup sid table = some s →
      stopRunSession table sid now = ⟨true, some (escalate now), table, []⟩) := by
  constructor
  · intro h
    unfold stopRunSession
    rw [h]
  · intro h
    unfold stopRunSession
    rw [h]

/-- C10 witness: a concrete absent id and a concrete present id. -/
theorem stop_run_contract_witness :
    (stopRunSession [] "s1" 4 = ⟨false, none, [], []⟩
      ∧ stopRunSession [("s1", ⟨false, true, [], some 3⟩)] "s1" 4
          = ⟨true, some (escalate 4), [("s1", ⟨false, true, [], some 3⟩)], []⟩) :=
  ⟨(stop_run_contract [] "s1" 4 ⟨false, true, [], some 3⟩).1 (by rfl),
   (stop_run_contract [("s1", ⟨false, true, [], some 3⟩)] "s1" 4
      ⟨false, true, [], some 3⟩).2 (by rfl)⟩

/-- C6 counterexample: two distinct batch allocations made in the same
millisecond (different random draws were available, but `runCodeWithInput`
derives its base path from `Date.now()` alone, with no random suffix)
produce the same basePath. -/
theorem alloc_unique_counterexample :
    allocBasePath ⟨AllocKind.batch, 12345, "ab3x"⟩
      = allocBasePath ⟨AllocKind.batch, 12345, "k9qz"⟩
    ∧ (⟨AllocKind.batch, 12345, "ab3x"⟩ : AllocCall)
      ≠ (⟨AllocKind.batch, 12345, "k9qz"⟩ : AllocCall) := by
  decide

/-- C6 (amended): only session base paths carry the random suffix — two
session allocations with the same timestamp but different suffixes get
distinct base paths — while batch base paths are derived from the
millisecond timestamp alone, so any two batch allocations in the same
millisecond receive the identical basePath. -/
theorem alloc_base_paths (t : Nat) (r1 r2 : String) (h : r1 ≠ r2) :
    allocBasePath ⟨AllocKind.session, t, r1⟩ ≠ allocBasePath ⟨AllocKind.session, t, r2⟩
    ∧ allocBasePath ⟨AllocKind.batch, t, r1⟩ = allocBasePath ⟨AllocKind.batch, t, r2⟩ := by
  constructor
  · intro heq
    apply h
    have hd := congrArg String.data heq
    simp only [allocBasePath, sessionBaseName, String.data_append] at hd
    exact String.ext (List.append_cancel_left hd)
  · rfl

/-- C6 witness: sessions in the same millisecond with different suffixes
still get distinct paths. -/
theorem alloc_base_paths_witness :
    allocBasePath ⟨AllocKind.session, 12345, "ab3x"⟩
      ≠ allocBasePath ⟨AllocKind.session, 12345, "k9qz"⟩ :=
  (alloc_base_paths 12345 "ab3x" "k9qz" (by decide)).1

/-- C7: a Java submission whose source has no public class declaration
fails fast: the batch runner resolves
`{ success:false, output:"No public class found" }` (also through
`runCodeWithInput`) and `startRunSession` returns the error without
touching the table — in both cases with no file written, no compile
attempted and no process spawned. -/
theorem java_no_public_class (env : ExecEnv) (senv : StartEnv) (table : SessTable)
    (fs : FS) (base code : String) (inputs : List String)
    (h : extractPublicClass code = none) :
    runJavaWithInput env fs base code inputs
      = ⟨Except.ok ⟨false, "No public class found"⟩, fs, false, false⟩
    ∧ (runCodeWithInput env fs "java" code inputs).1
      = Except.ok ⟨false, "No public class found"⟩
    ∧ startRunSession senv table fs "java" code
      = ⟨Except.error "No public class found. Java requires a public class name to run.",
          table, fs, false, false⟩ := by
  have hjava : runJavaWithInput env fs (batchBaseName env.now) code inputs
      = ⟨Except.ok ⟨false, "No public class found"⟩, fs, false, false⟩ := by
    unfold runJavaWithInput
    rw [h]
  refine ⟨?_, ?_, ?_⟩
  · unfold runJavaWithInput
    rw [h]
  · show (runCodeWithInput env fs "java" code inputs).1 = _
    unfold runCodeWithInput
    rw [show batchRunner "java" = some runJavaWithInput from rfl]
    simp only [show (getSupportedLanguages.contains "java") = true from rfl]
    rw [hjava]
    rfl
  · unfold startRunSession
    simp only [show (getSupportedLanguages.contains "java") = true from rfl]
    rw [h]
    rfl

/-- C7 witness: `class Foo{}` has no public class. -/
theorem java_no_public_class_witness :
    runJavaWithInput ⟨3, false, "", true, "", some 0, "", ""⟩ ["x.txt"] (batchBaseName 3)
        "class Foo{}" []
      = ⟨Except.ok ⟨false, "No public class found"⟩, ["x.txt"], false, false⟩
    ∧ (runCodeWithInput ⟨3, false, "", true, "", some 0, "", ""⟩ ["x.txt"] "java"
        "class Foo{}" []).1
      = Except.ok ⟨false, "No public class found"⟩
    ∧ startRunSession ⟨3, "abcd", "run_3_x", false, "", true, ""⟩ [] ["x.txt"] "java"
        "class Foo{}"
      = ⟨Except.error "No public class found. Java requires a public class name to run.",
          [], ["x.txt"], false, false⟩ :=
  java_no_public_class ⟨3, false, "", true, "", some 0, "", ""⟩
    ⟨3, "abcd", "run_3_x", false, "", true, ""⟩ [] ["x.txt"] (batchBaseName 3)
    "class Foo{}" [] (by decide)

/-- C1: for every supported-language batch run — whatever the runner did,
including resolving a failure or throwing — the `finally` sweep leaves no
file whose name includes the basePath stem in the scratch directory; and
the sweep tolerates missing files: it is idempotent, and on a directory
with no matching file it deletes nothing and raises nothing. -/
theorem batch_cleanup_contract (env : ExecEnv) (fs : FS) (language code b f : String)
    (inputs : List String)
    (hsup : (getSupportedLanguages.contains language) = true) :
    (f ∈ (runCodeWithInput env fs language code inputs).2 →
      jsIncludes f (batchBaseName env.now) = false)
    ∧ cleanupTempFiles (cleanupTempFiles fs b) b = cleanupTempFiles fs b
    ∧ ((∀ g ∈ fs, jsIncludes g b = false) → cleanupTempFiles fs b = fs) := by
  refine ⟨?_, ?_, ?_⟩
  · intro hf
    unfold runCodeWithInput at hf
    rw [hsup] at hf
    simp only [Bool.true_eq_false, if_false] at hf
    rcases hbr : batchRunner language with _ | runner
    · rw [hbr] at hf
      simp only [cleanupTempFiles, List.mem_filter] at hf
      simpa using hf.2
    · rw [hbr] at hf
      simp only [cleanupTempFiles, List.mem_filter] at hf
      simpa using hf.2
  · unfold cleanupTempFiles
    rw [List.filter_filter]
    congr 1
    funext g
    rw [Bool.and_self]
  · intro hall
    unfold cleanupTempFiles
    rw [List.filter_eq_self]
    intro g hg
    simp [hall g hg]

/-- C1 witness: a successful Python run over a scratch directory holding
an unrelated file; nothing matching the stem survives, and the sweep is a
tolerant no-op on non-matching content. -/
theorem batch_cleanup_contract_witness :
    ("keep.txt" ∈ (runCodeWithInput ⟨7, false, "", true, "", some 0, "hi", ""⟩
        ["keep.txt"] "python" "print(1)" []).2 →
      jsIncludes "keep.txt" (batchBaseName 7) = false)
    ∧ cleanupTempFiles (cleanupTempFiles ["keep.txt"] "temp_7") "temp_7"
        = cleanupTempFiles ["keep.txt"] "temp_7"
    ∧ ((∀ g ∈ ["keep.txt"], jsIncludes g "temp_7" = false) →
        cleanupTempFiles ["keep.txt"] "temp_7" = ["keep.txt"]) :=
  batch_cleanup_contract ⟨7, false, "", true, "", some 0, "hi", ""⟩ ["keep.txt"]
    "python" "print(1)" "temp_7" "keep.txt" [] (by decide)

/-! Helper lemmas for C2: every runner resolves when the file write does
not throw, and the Java runner resolves unconditionally. -/

theorem runInterpreted_resolved (ext : String) (env : ExecEnv) (fs : FS) (base : String)
    (h : env.writeFails = false) :
    isResolved (runInterpreted ext env fs base).result = true := by
  unfold runInterpreted
  rw [if_neg (by simp [h])]
  rfl

theorem runCompiled_resolved (srcExt : String) (env : ExecEnv) (fs : FS) (base : String)
    (h : env.writeFails = false) :
    isResolved (runCompiled srcExt env fs base).result = true := by
  unfold runCompiled
  rw [if_neg (by simp [h])]
  by_cases hc : env.compileOk = true
  · rw [if_pos hc]
    rfl
  · rw [if_neg hc]
    rfl

theorem runJavaCompileAndRun_resolved (env : ExecEnv) (fs : FS) (className : String) :
    isResolved (runJavaCompileAndRun env fs className).result = true := by
  unfold runJavaCompileAndRun
  by_cases hw : env.writeFails = true
  · rw [if_pos hw]
    rfl
  · rw [if_neg hw]
    by_cases hc : env.compileOk = true
    · rw [if_pos hc]
      rfl
    · rw [if_neg hc]
      rfl

theorem runJava_resolved (env : ExecEnv) (fs : FS) (base code : String)
    (inputs : List String) :
    isResolved (runJavaWithInput env fs base code inputs).result = true := by
  unfold runJavaWithInput
  cases hEx : extractPublicClass code with
  | none => rfl
  | some className => exact runJavaCompileAndRun_resolved env fs className

/-- C2 counterexample: the claim says `runCodeWithInput` never throws, but
for a non-Java language a throwing `fs.writeFileSync` escapes: the body
has `try/finally` with no `catch`, so the returned promise rejects with
the write error instead of resolving to a RunResult. -/
theorem run_code_never_throws_counterexample :
    (runCodeWithInput ⟨0, true, "EACCES: permission denied", true, "", some 0, "", ""⟩
        [] "javascript" "console.log(1)" []).1
      = Except.error "EACCES: permission denied" := by
  rfl

/-- C2 (amended): `runCodeWithInput` resolves to a RunResult for every
unsupported language, compile failure, spawn/runtime failure and timeout,
and the Java runner even catches a throwing write; but for the other
languages the call only resolves when the file write does not throw — a
throwing write propagates out as a rejected promise. -/
theorem run_code_resolves (env : ExecEnv) (fs : FS) (language code : String)
    (inputs : List String) :
    (env.writeFails = false →
      isResolved (runCodeWithInput env fs language code inputs).1 = true)
    ∧ isResolved (runCodeWithInput env fs "java" code inputs).1 = true := by
  constructor
  · intro hw
    unfold runCodeWithInput
    by_cases hc : (getSupportedLanguages.contains language) = false
    · rw [if_pos hc]
      rfl
    · rw [if_neg hc]
      rcases hbr : batchRunner language with _ | runner
      · rfl
      · show isResolved (runner env fs (batchBaseName env.now) code inputs).result = true
        unfold batchRunner at hbr
        split at hbr
        · injection hbr with hbr
          subst hbr
          exact runInterpreted_resolved ".js" env fs _ hw
        · injection hbr with hbr
          subst hbr
          exact runInterpreted_resolved ".py" env fs _ hw
        · injection hbr with hbr
          subst hbr
          exact runJava_resolved env fs _ code inputs
        · injection hbr with hbr
          subst hbr
          exact runCompiled_resolved ".c" env fs _ hw
        · injection hbr with hbr
          subst hbr
          exact runCompiled_resolved ".cpp" env fs _ hw
        · injection hbr with hbr
          subst hbr
          exact runInterpreted_resolved ".go" env fs _ hw
        · injection hbr with hbr
          subst hbr
          exact runInterpreted_resolved ".php" env fs _ hw
        · exact absurd hbr (by simp)
  · unfold runCodeWithInput
    rw [show batchRunner "java" = some runJavaWithInput from rfl]
    simp only [show (getSupportedLanguages.contains "java") = true from rfl,
      Bool.true_eq_false, if_false]
    exact runJava_resolved env fs _ code inputs

/-- C2 witness: a JavaScript run with a working filesystem resolves, and a
Java run resolves even when the write throws. -/
theorem run_code_resolves_witness :
    isResolved (runCodeWithInput ⟨7, false, "", true, "", some 0, "hi", ""⟩
        [] "javascript" "console.log(1)" []).1 = true
    ∧ isResolved (runCodeWithInput ⟨7, true, "EACCES", true, "", some 0, "", ""⟩
        [] "java" "public class A {}" []).1 = true :=
  ⟨(run_code_resolves ⟨7, false, "", true, "", some 0, "hi", ""⟩
      [] "javascript" "console.log(1)" []).1 rfl,
   (run_code_resolves ⟨7, true, "EACCES", true, "", some 0, "", ""⟩
      [] "java" "public class A {}" []).2⟩

end Proworldz
